import Mathlib

/-!
Verification of the cookie-classify consent-manipulation and
similarity-aggregation core against its specification.

The definitions below are shallow embeddings of
`src/injections/onetrust.js`, `src/injections/cmp-detection.js`,
`src/injections/clickable-elements.js` and the aggregation cell of
`src/clickstream-analysis.ipynb`.  JavaScript objects are modelled as
association lists with insertion-order update semantics (`objInsert`),
JavaScript strings as Lean `String`s, and `String.prototype.split` /
`Array.prototype.join` are modelled character-exactly (`jsSplit`,
`jsJoin`).  The browser's DOM is modelled as a rose tree of elements
(`DomNode`), and the aggregation notebook's filesystem probes as a pair
of boolean presence functions per clickstream.
-/

set_option maxRecDepth 4096

namespace CookieClassify

/-! ## JavaScript primitives -/

/-- Helper for `splitList`: prepend a character onto the first chunk of a
split result (used for the non-separator branch of the scan). -/
def consHead (b : Char) : List (List Char) → List (List Char)
  | [] => [[b]]
  | h :: t => (b :: h) :: t

/-- `String.prototype.split` with a single-character separator, over
character lists: scan left to right, cutting at every occurrence of `c`.
`"a&b".split("&") = ["a","b"]`, `"".split("&") = [""]`,
`"a&".split("&") = ["a",""]`. -/
def splitChar (c : Char) : List Char → List (List Char)
  | [] => [[]]
  | b :: rest =>
    if b = c then [] :: splitChar c rest
    else consHead b (splitChar c rest)

/-- `String.prototype.split` with a multi-character separator `c :: cs`:
cut wherever the separator is a prefix of the remaining input.  The fuel
argument (instantiated with the input length) only makes the recursion
structural; it is never exhausted. -/
def splitListFuel (c : Char) (cs : List Char) : Nat → List Char → List (List Char)
  | _, [] => [[]]
  | 0, l => [l]
  | fuel + 1, b :: rest =>
    if (c :: cs).isPrefixOf (b :: rest) then
      [] :: splitListFuel c cs fuel (rest.drop cs.length)
    else
      consHead b (splitListFuel c cs fuel rest)

/-- `String.prototype.split`.  An empty separator splits into single
characters, as in JavaScript. -/
def jsSplit (s sep : String) : List String :=
  match sep.data with
  | [] => s.data.map (fun ch => String.mk [ch])
  | [c] => (splitChar c s.data).map String.mk
  | c :: cs => (splitListFuel c cs s.data.length s.data).map String.mk

/-- `Array.prototype.join` over character lists. -/
def joinList (sep : List Char) : List (List Char) → List Char
  | [] => []
  | [p] => p
  | p :: ps => p ++ sep ++ joinList sep ps

/-- `Array.prototype.join` on strings. -/
def jsJoin (sep : String) (parts : List String) : String :=
  String.mk (joinList sep.data (parts.map String.data))

/-- `String.prototype.toLowerCase` (ASCII, as in `Char.toLower`). -/
def jsToLower (s : String) : String :=
  String.mk (s.data.map Char.toLower)

/-- `String.prototype.includes`, over character lists. -/
def containsSub (s pat : List Char) : Bool :=
  match s with
  | [] => pat == []
  | _ :: rest => pat.isPrefixOf s || containsSub rest pat

/-- Key lookup on the association-list model of a JS object (keys are
unique, so first match = the entry). -/
def lookupKey {α : Type} (m : List (String × α)) (k : String) : Option α :=
  match m with
  | [] => none
  | p :: rest => if p.1 = k then some p.2 else lookupKey rest k

/-- JavaScript object property assignment `m[k] = v` on an association
list: an existing key (`k in m`) is updated in place, a new key is
appended (this is exactly the insertion-order semantics of JS object
keys). -/
def objInsert {α : Type} (m : List (String × α)) (k : String) (v : α) :
    List (String × α) :=
  if (lookupKey m k).isSome then
    m.map (fun p => if p.1 = k then (k, v) else p)
  else
    m ++ [(k, v)]

/-- Rendering of a possibly-`undefined` JS string value inside a template
literal: `undefined` prints as `"undefined"`. -/
def jsUndef : Option String → String
  | none => "undefined"
  | some s => s

/-- JS object property read `m[k]`: `undefined` both for a missing key and
for a stored `undefined`. -/
def jsGet (m : List (String × Option String)) (k : String) : Option String :=
  (lookupKey m k).getD none

/-! ## onetrust.js : category extraction (`getCookieGroupIDs`) -/

/-- `element.id.split('ot-header-id-')[1]`, with JS's stringification of
`undefined` when the prefix is absent (the selector guarantees it is not). -/
def elementKey (domId : String) : String :=
  ((jsSplit domId "ot-header-id-")[1]?).getD "undefined"

/-- The (category id, label) binding contributed by each scanned element:
the id suffix after the `ot-header-id-` prefix, and the element's
`innerText`. -/
def bindings (elements : List (String × String)) : List (String × String) :=
  elements.map (fun el => (elementKey el.1, el.2))

/-- One iteration of the `forEach` body of `getCookieGroupIDs`: flag a
conflict when the id is already bound to a different label, then assign
`categories[onetrust_id] = category` unconditionally. -/
def gcgStep (acc : Bool × List (String × String)) (el : String × String) :
    Bool × List (String × String) :=
  let conflict : Bool :=
    match lookupKey acc.2 el.1 with
    | some prev => prev != el.2
    | none => false
  (if conflict then false else acc.1, objInsert acc.2 el.1 el.2)

/-- `getCookieGroupIDs` from onetrust.js: scan the elements whose id
starts with `ot-header-id-`, map id suffix to `innerText`, and return
`null` (here `none`) if the same id was ever bound to two different
labels.  `elements` carries each matched element's full DOM id and its
`innerText`. -/
def getCookieGroupIDs (elements : List (String × String)) :
    Option (List (String × String)) :=
  let r := (bindings elements).foldl gcgStep (true, [])
  if r.1 then some r.2 else none

/-! ## onetrust.js : encoding, decoding, tracking classification -/

/-- `decodeString`'s loop body: split one `key=value` pair on `=` and
assign it into the result object (`value` is `undefined` when the pair has
no `=`). -/
def decodePair (result : List (String × Option String)) (pair : String) :
    List (String × Option String) :=
  let parts := jsSplit pair "="
  objInsert result (parts.headD "") parts[1]?

/-- `decodeString` from onetrust.js: split the query string on `&`, then
each pair on `=`. -/
def decodeString (str : String) : List (String × Option String) :=
  (jsSplit str "&").foldl decodePair []

/-- `encodeObject` from onetrust.js: `key=value` pairs joined with `&`. -/
def encodeObject (obj : List (String × Option String)) : String :=
  jsJoin "&" (obj.map (fun p => p.1 ++ "=" ++ jsUndef p.2))

/-- `encodeGroups` from onetrust.js: `key:value` pairs joined with `,`
(e.g. `"C0004:0,C0003:1"`). -/
def encodeGroups (obj : List (String × Nat)) : String :=
  jsJoin "," (obj.map (fun p => p.1 ++ ":" ++ toString p.2))

/-- The substring corpus of tracking-indicating words. -/
def trackingCorpus : List String := ["track", "target", "advert"]

/-- The exact-word corpus (words too common to substring-match). -/
def trackingCorpusExact : List String := ["ad", "ads"]

/-- The per-category loop body of `disableOnlyTracking`: lowercase the
label, flag tracking when a space-separated word is in the exact corpus or
when the lowercased label contains a corpus word as a substring. -/
def isTracking (label : String) : Bool :=
  let category := jsToLower label
  let afterExact := (jsSplit category " ").foldl
    (fun tracking word =>
      if trackingCorpusExact.contains word then true else tracking) false
  trackingCorpus.foldl
    (fun tracking word =>
      if containsSub category.data word.data then true else tracking)
    afterExact

/-- The decision object built by `disableOnlyTracking`: tracking
categories map to `0` (disabled), all others to `1` (enabled). -/
def disableOnlyTrackingGroups (cookieMapping : List (String × String)) :
    List (String × Nat) :=
  cookieMapping.foldl
    (fun groupsObject p =>
      objInsert groupsObject p.1 (if isTracking p.2 then 0 else 1)) []

/-- `disableOnlyTracking` from onetrust.js.  When `getCookieGroupIDs`
returned `null`, the JS `for..in` loop over `null` performs no iterations
and the empty groups object is encoded. -/
def disableOnlyTracking (cookieMapping : Option (List (String × String))) :
    String :=
  match cookieMapping with
  | none => encodeGroups []
  | some m => encodeGroups (disableOnlyTrackingGroups m)

/-! ## onetrust.js : main body -/

/-- JS `parseInt` on a possibly-undefined string, restricted to plain
base-10 numerals: an optional sign followed by a longest run of decimal
digits; `none` models `NaN`.  (The hex-prefix and leading-whitespace
handling of full `parseInt` is not modelled; the cookie's
`interactionCount` is a plain numeral.) -/
def parseIntJS : Option String → Option Int
  | none => none
  | some s =>
    let signAndDigits : Int × List Char :=
      match s.data with
      | '-' :: rest => (-1, rest)
      | '+' :: rest => (1, rest)
      | l => (1, l)
    let digits := signAndDigits.2.takeWhile (fun ch => ch.isDigit)
    if digits.isEmpty then none
    else
      some (signAndDigits.1 *
        (digits.foldl (fun acc ch => 10 * acc + (ch.toNat - '0'.toNat)) 0 : Nat))

/-- The rewritten consent object: `groups` replaced by the encoded
decision mapping, `interactionCount` re-parsed and incremented (`"NaN"`
when it does not parse, as in JS), `landingPath` reset to the
`"NotLandingPage"` sentinel. -/
def injectedBody (consent : String) (cookieGroupIDs : Option (List (String × String))) :
    List (String × Option String) :=
  let obj := decodeString consent
  let obj₁ := objInsert obj "groups" (some (disableOnlyTracking cookieGroupIDs))
  let ic : String :=
    match parseIntJS (jsGet obj₁ "interactionCount") with
    | some n => toString (n + 1)
    | none => "NaN"
  let obj₂ := objInsert obj₁ "interactionCount" (some ic)
  objInsert obj₂ "landingPath" (some "NotLandingPage")

/-- The page state read by the injected script: the `OptanonConsent`
cookie (if any), the scanned category-header elements (full DOM id and
`innerText`), and the domain reported by `window.OneTrust` when that API
object is present. -/
structure PageState where
  optanonConsent : Option String
  elements : List (String × String)
  oneTrustDomain : Option String

/-- A cookie-jar effect performed by the script. -/
inductive CookieCommit where
  | remove (name path domain : String)
  | set (name value path domain : String) (expires : Nat) (secure : Bool)
      (sameSite : String)
deriving DecidableEq

/-- Result of running the script's main body to completion. -/
inductive Outcome where
  | crashed (msg : String)
  | success (commits : List CookieCommit)
deriving DecidableEq

/-- The main body of onetrust.js.  The three failure checks only
`console.warn`; their `return` statements are commented out in the
source, so execution falls through: a missing cookie crashes inside
`decodeString(undefined)`, a missing `window.OneTrust` crashes at
`OneTrust.GetDomainData()`, and a category conflict is carried through as
an empty groups encoding. -/
def onetrustMain (page : PageState) (now : String) : Outcome :=
  let cookieGroupIDs := getCookieGroupIDs page.elements
  match page.optanonConsent with
  | none => .crashed "TypeError: undefined has no method split"
  | some consent =>
    let body := injectedBody consent cookieGroupIDs
    match page.oneTrustDomain with
    | none => .crashed "TypeError: OneTrust is undefined"
    | some d =>
      let domain := "." ++ d
      .success
        [ .remove "OptanonConsent" "/" domain,
          .set "OptanonConsent" (encodeObject body) "/" domain 1 false "Lax",
          .set "OptanonAlertBoxClosed" now "/" domain 1 false "Lax" ]

/-! ## cmp-detection.js -/

/-- The CMP detection script: a single probe for the OneTrust global API
object.  When the probe is negative the script falls off the end and
returns no value (JS `undefined`, modelled as `none`). -/
def cmpDetection (oneTrustPresent : Bool) : Option String :=
  if oneTrustPresent then some "onetrust" else none

/-! ## clickable-elements.js : selector construction (`fullPath`) -/

/-- One step of the upward walk of `fullPath`: an element's tag name, its
`id` attribute (the empty string when it has none, matching JS
truthiness), and its 1-based position among its parent's element
children (`previousElementSibling` count + 1). -/
structure PathEntry where
  tag : String
  idAttr : String
  pos : Nat
deriving DecidableEq

/-- The segments produced by the `while (el.parentNode)` loop of
`fullPath`, in the order in which they are pushed (element first,
ancestors after; `unshift` later reverses this).  The chain argument
lists the element and its ancestors from the element up to the
`documentElement`, which is the last entry: its `parentNode` is the
document, so it is still processed, and the `el ==
el.ownerDocument.documentElement` test selects the bare tag name for
it. -/
def fullPathSegs : List PathEntry → List String
  | [] => []
  | e :: rest =>
    if e.idAttr ≠ "" then ["#" ++ e.idAttr]
    else if rest.isEmpty then [e.tag]
    else (e.tag ++ ":nth-child(" ++ toString e.pos ++ ")") :: fullPathSegs rest

/-- `fullPath` from clickable-elements.js: the walk's segments are
`unshift`ed (so the final order is root-to-leaf) and joined with
`" > "`. -/
def fullPath (chain : List PathEntry) : String :=
  jsJoin " > " (fullPathSegs chain).reverse

/-- The tag:nth-child(pos) segment of an element without an id. -/
def qualifiedName (e : PathEntry) : String :=
  e.tag ++ ":nth-child(" ++ toString e.pos ++ ")"

/-- The specification's description of the selector segments (leaf
first): qualified tag names up to, and an id anchor at, the first
id-bearing element; when no element of the chain has an id the walk
reaches the document root, which contributes its bare tag name. -/
def specSegs (chain : List PathEntry) : List String :=
  let noId := chain.takeWhile (fun e => e.idAttr == "")
  match chain.dropWhile (fun e => e.idAttr == "") with
  | anchor :: _ => noId.map qualifiedName ++ ["#" ++ anchor.idAttr]
  | [] =>
    match noId.getLast? with
    | none => []
    | some root => noId.dropLast.map qualifiedName ++ [root.tag]

/-! ## clickable-elements.js : element enumeration -/

/-- A DOM element as seen by the clickability predicate: tag name, `id`
attribute (empty = absent), whether it has a non-null `onclick` handler
and whether its computed cursor style is `pointer`. -/
structure DomElem where
  tag : String
  idAttr : String
  onclick : Bool
  pointerCursor : Bool
deriving DecidableEq

/-- A DOM snapshot: `document.querySelectorAll('*')` in document order,
each element paired with its upward ancestor chain (itself first, the
`documentElement` last) as navigated by `parentNode` /
`previousElementSibling` in `fullPath`.  An element `x` contains an
element `y` exactly when `x`'s chain is a proper suffix of `y`'s. -/
abbrev DomSnapshot : Type := List (DomElem × List PathEntry)

/-- The clickability predicate of clickable-elements.js:
`tagName === "BUTTON" || tagName === "A" || onclick != null ||
getComputedStyle(element).cursor == "pointer"`. -/
def includeElement (n : DomElem) : Bool :=
  n.tag == "BUTTON" || n.tag == "A" || n.onclick || n.pointerCursor

/-- `items`: all elements filtered by the clickability predicate.  The
nesting filter on line 36 of clickable-elements.js is commented out, so
no element is discarded for being nested inside another matched
element. -/
def documentItems (doc : DomSnapshot) : List (DomElem × List PathEntry) :=
  doc.filter (fun p => includeElement p.1)

/-- `selectors`: the value returned by clickable-elements.js. -/
def clickableSelectors (doc : DomSnapshot) : List String :=
  (documentItems doc).map (fun p => fullPath p.2)

/-! ## clickstream-analysis.ipynb : aggregation cell -/

/-- One clickstream directory: whether `all_cookies-i.png` and
`no_cookies-i.png` exist at each action index, and the similarity score
`ImageShingle.compare` would produce for the pair at index `i`. -/
structure Clickstream where
  allCookies : Nat → Bool
  noCookies : Nat → Bool
  score : Nat → ℚ

/-- `os.path.isfile(all_cookies_path) and os.path.isfile(no_cookies_path)`. -/
def bothPresent (cs : Clickstream) (i : Nat) : Bool :=
  cs.allCookies i && cs.noCookies i

/-- The `for _ in range(10)` loop of the aggregation cell, carrying
`(total_actions, clickstream_sum)`: while both artifacts exist at index
`total_actions`, add the pair's similarity and advance; otherwise
`break`. -/
def clickstreamLoop (cs : Clickstream) : Nat → Nat × ℚ → Nat × ℚ
  | 0, acc => acc
  | fuel + 1, (total_actions, clickstream_sum) =>
    if bothPresent cs total_actions then
      clickstreamLoop cs fuel
        (total_actions + 1, clickstream_sum + cs.score total_actions)
    else (total_actions, clickstream_sum)

/-- The per-clickstream result `(total_actions, clickstream_sum)`. -/
def clickstreamWalk (cs : Clickstream) : Nat × ℚ :=
  clickstreamLoop cs 10 (0, 0)

/-- The per-clickstream body of the website loop, carrying
`(sample_size, total_clickstreams, website_sum)`. -/
def websiteStep (acc : Nat × Nat × ℚ) (cs : Clickstream) : Nat × Nat × ℚ :=
  let (sample_size, total_clickstreams, website_sum) := acc
  let (total_actions, clickstream_sum) := clickstreamWalk cs
  if total_actions ≠ 0 then
    (sample_size + total_actions, total_clickstreams + 1,
      website_sum + clickstream_sum / (total_actions : ℚ))
  else
    (sample_size + total_actions, total_clickstreams, website_sum)

/-- The per-website aggregation: `some (website_similarity, sample_size)`
when a row is appended to `rows_list`, `none` when the website is
skipped (`total_clickstreams == 0`). -/
def websiteAgg (clickstreams : List Clickstream) : Option (ℚ × Nat) :=
  let final := clickstreams.foldl websiteStep (0, 0, 0)
  if final.2.1 ≠ 0 then some (final.2.2 / (final.2.1 : ℚ), final.1) else none

/-- The sum of `total_actions` over all clickstreams of a website. -/
def sampleSize (clickstreams : List Clickstream) : Nat :=
  (clickstreams.map (fun cs => (clickstreamWalk cs).1)).sum

/-- The clickstreams with at least one comparable action. -/
def contributing (clickstreams : List Clickstream) : List Clickstream :=
  clickstreams.filter (fun cs => (clickstreamWalk cs).1 ≠ 0)

/-- `clickstream_sum / total_actions` for one clickstream. -/
def clickstreamSimilarity (cs : Clickstream) : ℚ :=
  (clickstreamWalk cs).2 / ((clickstreamWalk cs).1 : ℚ)

/-! ## Concrete inputs used by counterexamples and witnesses -/

/-- A clickstream whose paired artifacts exist at indices 0..10 (eleven
comparable pairs), every comparison scoring 1. -/
def cs11 : Clickstream :=
  ⟨fun i => decide (i < 11), fun i => decide (i < 11), fun _ => 1⟩

/-- A clickstream with 5 comparable action pairs, each scoring 1/2. -/
def cs507a : Clickstream :=
  ⟨fun i => decide (i < 5), fun i => decide (i < 5), fun _ => 1 / 2⟩

/-- A clickstream with no comparable action pair. -/
def cs507b : Clickstream := ⟨fun _ => false, fun _ => true, fun _ => 1 / 2⟩

/-- A clickstream with 7 comparable action pairs, each scoring 1/2. -/
def cs507c : Clickstream :=
  ⟨fun i => decide (i < 7), fun i => decide (i < 7), fun _ => 1 / 2⟩

/-- Three clickstreams with 5, 0 and 7 comparable action pairs: the
spec's end-to-end example. -/
def cls507 : List Clickstream := [cs507a, cs507b, cs507c]

/-- A clickstream with artifacts at every index. -/
def csAll : Clickstream := ⟨fun _ => true, fun _ => true, fun _ => 0⟩

/-- A clickstream agreeing with `csAll` on indices 0..9 but with the
artifact pair at index 12 missing and a different score there. -/
def csHigh : Clickstream :=
  ⟨fun i => decide (i ≠ 12), fun _ => true, fun i => if i = 12 then 5 else 0⟩

def buttonNode : DomElem := ⟨"BUTTON", "", false, false⟩

def aNode : DomElem := ⟨"A", "", false, false⟩

def buttonChain : List PathEntry := [⟨"BUTTON", "", 1⟩, ⟨"HTML", "", 1⟩]

def aChain : List PathEntry := [⟨"A", "", 1⟩, ⟨"BUTTON", "", 1⟩, ⟨"HTML", "", 1⟩]

/-- A document whose root contains a matched BUTTON which itself
contains a matched A element (chains witness the containment). -/
def c6doc : DomSnapshot :=
  [ (⟨"HTML", "", false, false⟩, [⟨"HTML", "", 1⟩]),
    (buttonNode, buttonChain),
    (aNode, aChain) ]

/-- Chain of the first of two sibling DIVs (no ids) under a parent with
id `root`. -/
def divChain₁ : List PathEntry :=
  [⟨"DIV", "", 1⟩, ⟨"SECTION", "root", 1⟩, ⟨"BODY", "", 1⟩, ⟨"HTML", "", 1⟩]

/-- Chain of the second of the two sibling DIVs. -/
def divChain₂ : List PathEntry :=
  [⟨"DIV", "", 2⟩, ⟨"SECTION", "root", 1⟩, ⟨"BODY", "", 1⟩, ⟨"HTML", "", 1⟩]

/-- Chain of a DIV with no id anywhere above it: the walk reaches the
document root. -/
def noIdChain : List PathEntry :=
  [⟨"DIV", "", 1⟩, ⟨"BODY", "", 2⟩, ⟨"HTML", "", 1⟩]

/-- A concrete page for the successful-injection witness. -/
def pageOk : PageState :=
  { optanonConsent := some "groups=1:1&interactionCount=2&landingPath=www.x.com&foo=bar",
    elements := [("ot-header-id-1", "Strictly Necessary Cookies"),
                 ("ot-header-id-2", "Targeting Cookies")],
    oneTrustDomain := some "example.com" }

/-! ## Specification-side predicates -/

/-- Two bindings of the same category id to different labels. -/
def PairwiseConsistent (l : List (String × String)) : Prop :=
  ∀ p ∈ l, ∀ q ∈ l, p.1 = q.1 → p.2 = q.2

/-- Every binding of `l` is compatible with what `cats` already stores. -/
def CatsCompat (cats l : List (String × String)) : Prop :=
  ∀ p ∈ l, ∀ v, lookupKey cats p.1 = some v → v = p.2

/-- The value of the last assignment `categories[k] = v` performed while
walking `l` left to right (later entries win). -/
def lastAssign : List (String × String) → String → Option String
  | [], _ => none
  | p :: rest, k => (lastAssign rest k).or (if p.1 = k then some p.2 else none)

/-- A string usable as a key or value of the `&`/`=` query-string
encoding: it contains neither separator character. -/
def goodStr (s : String) : Bool :=
  !s.data.contains '&' && !s.data.contains '='

/-- A defined (non-`undefined`) value with no separator characters. -/
def goodVal : Option String → Bool
  | none => false
  | some v => goodStr v

/-! ## Helper lemmas: the JS object model -/

theorem lookupKey_nil {α : Type} (k : String) :
    lookupKey ([] : List (String × α)) k = none := rfl

theorem lookupKey_cons {α : Type} (p : String × α) (m : List (String × α))
    (k : String) :
    lookupKey (p :: m) k = if p.1 = k then some p.2 else lookupKey m k := rfl

theorem lookupKey_map_update {α : Type} (m : List (String × α)) (k : String)
    (v : α) (k' : String) :
    lookupKey (m.map (fun p => if p.1 = k then (k, v) else p)) k' =
      if k' = k then (if (lookupKey m k).isSome then some v else none)
      else lookupKey m k' := by
  induction m with
  | nil => by_cases h : k' = k <;> simp [h, lookupKey]
  | cons p m ih =>
    simp only [List.map_cons, lookupKey_cons, ih]
    by_cases hp : p.1 = k
    · subst hp
      by_cases hk : k' = p.1
      · subst hk
        simp
      · have hk' : ¬(p.1 = k') := fun h => hk h.symm
        simp [hk, hk']
    · by_cases hk : k' = p.1
      · have h1 : p.1 = k' := hk.symm
        have h2 : ¬(k' = k) := fun hh => hp (hk.symm.trans hh)
        simp [hp, h1, h2]
      · have hk' : ¬(p.1 = k') := fun h => hk h.symm
        simp [hp, hk']

theorem lookupKey_append_single {α : Type} (m : List (String × α))
    (k : String) (v : α) (k' : String) (h : lookupKey m k = none) :
    lookupKey (m ++ [(k, v)]) k' = if k' = k then some v else lookupKey m k' := by
  induction m with
  | nil =>
    by_cases hk : k' = k
    · simp [lookupKey, hk]
    · have hk' : ¬(k = k') := fun hh => hk hh.symm
      simp [lookupKey, hk, hk']
  | cons p m ih =>
    rw [lookupKey_cons] at h
    by_cases hp : p.1 = k
    · simp [hp] at h
    · simp only [hp, if_false] at h
      by_cases hq : p.1 = k'
      · have hk : ¬(k' = k) := fun hh => hp (hq.trans hh)
        simp [List.cons_append, lookupKey_cons, hq, hk]
      · simp [List.cons_append, lookupKey_cons, hq, ih h]

theorem objInsert_lookupKey {α : Type} (m : List (String × α)) (k : String)
    (v : α) (k' : String) :
    lookupKey (objInsert m k v) k' = if k' = k then some v else lookupKey m k' := by
  unfold objInsert
  by_cases h : (lookupKey m k).isSome
  · simp only [h, if_true, lookupKey_map_update, if_pos]
  · have hn : lookupKey m k = none := Option.not_isSome_iff_eq_none.mp h
    simp only [h, Bool.false_eq_true, if_false,
      lookupKey_append_single m k v k' hn]

theorem objInsert_of_fresh {α : Type} (m : List (String × α)) (k : String)
    (v : α) (h : lookupKey m k = none) :
    objInsert m k v = m ++ [(k, v)] := by
  unfold objInsert
  rw [h]
  rfl

/-! ## Helper lemmas: split and join -/

theorem splitChar_of_not_mem (c : Char) (l : List Char) (h : c ∉ l) :
    splitChar c l = [l] := by
  induction l with
  | nil => rfl
  | cons b rest ih =>
    have hb : ¬(b = c) := fun hb => h (hb ▸ List.mem_cons_self b rest)
    have hr : c ∉ rest := fun hr => h (List.mem_cons_of_mem b hr)
    simp [splitChar, hb, ih hr, consHead]

theorem splitChar_append (c : Char) (p l : List Char) (h : c ∉ p) :
    splitChar c (p ++ c :: l) = p :: splitChar c l := by
  induction p with
  | nil => simp [splitChar]
  | cons b p ih =>
    have hb : ¬(b = c) := fun hb => h (hb ▸ List.mem_cons_self b p)
    have hp : c ∉ p := fun hp => h (List.mem_cons_of_mem b hp)
    simp [splitChar, hb, ih hp, consHead]

theorem splitChar_joinList (c : Char) (parts : List (List Char))
    (hne : parts ≠ []) (h : ∀ p ∈ parts, c ∉ p) :
    splitChar c (joinList [c] parts) = parts := by
  induction parts with
  | nil => exact absurd rfl hne
  | cons p parts ih =>
    match parts with
    | [] =>
      exact splitChar_of_not_mem c p (h p (List.mem_cons_self p []))
    | q :: parts' =>
      have hp : c ∉ p := h p (List.mem_cons_self p (q :: parts'))
      have hrest : ∀ r ∈ q :: parts', c ∉ r :=
        fun r hr => h r (List.mem_cons_of_mem p hr)
      have : joinList [c] (p :: q :: parts') = p ++ c :: joinList [c] (q :: parts') := by
        simp [joinList]
      rw [this, splitChar_append c p _ hp, ih (by simp) hrest]

/-! ## Helper lemmas: substring test and boolean folds -/

theorem containsSub_iff (s pat : List Char) :
    containsSub s pat = true ↔ pat <:+: s := by
  induction s with
  | nil =>
    simp [containsSub, List.infix_nil]
  | cons b rest ih =>
    simp [containsSub, Bool.or_eq_true, List.isPrefixOf_iff_prefix, ih,
      List.infix_cons_iff]

theorem foldl_if_or {α : Type} (p : α → Bool) (l : List α) (b : Bool) :
    l.foldl (fun t w => if p w then true else t) b = (b || l.any p) := by
  induction l generalizing b with
  | nil => simp
  | cons a l ih =>
    rw [List.foldl_cons, ih]
    by_cases h : p a = true <;> simp [h, Bool.or_assoc]

/-! ## Helper lemmas: getCookieGroupIDs -/

theorem catsCompat_nil (l : List (String × String)) : CatsCompat [] l := by
  intro p _ v hv
  simp [lookupKey] at hv

theorem pairwiseConsistent_cons {e : String × String}
    {l : List (String × String)} (h : PairwiseConsistent (e :: l)) :
    PairwiseConsistent l :=
  fun p hp q hq => h p (List.mem_cons_of_mem e hp) q (List.mem_cons_of_mem e hq)

theorem compat_insert_iff (e : String × String)
    (cats rest : List (String × String)) :
    ((∀ v, lookupKey cats e.1 = some v → v = e.2) ∧
      CatsCompat (objInsert cats e.1 e.2) rest ∧ PairwiseConsistent rest) ↔
      (CatsCompat cats (e :: rest) ∧ PairwiseConsistent (e :: rest)) := by
  constructor
  · rintro ⟨h1, h2, h3⟩
    constructor
    · intro p hp v hv
      rcases List.mem_cons.mp hp with hpe | hpr
      · subst hpe
        exact h1 v hv
      · by_cases hk : p.1 = e.1
        · have hv2 : v = e.2 := h1 v (hk ▸ hv)
          have he2 : e.2 = p.2 :=
            h2 p hpr e.2 (by rw [objInsert_lookupKey]; simp [hk])
          exact hv2.trans he2
        · exact h2 p hpr v (by rw [objInsert_lookupKey]; simp [hk, hv])
    · intro p hp q hq heq
      rcases List.mem_cons.mp hp with hpe | hpr <;>
        rcases List.mem_cons.mp hq with hqe | hqr
      · rw [hpe, hqe]
      · subst hpe
        exact (h2 q hqr p.2 (by rw [objInsert_lookupKey]; simp [heq.symm]))
      · subst hqe
        exact (h2 p hpr q.2 (by rw [objInsert_lookupKey]; simp [heq])).symm
      · exact h3 p hpr q hqr heq
  · rintro ⟨hc, hpc⟩
    refine ⟨fun v hv => hc e (List.mem_cons_self e rest) v hv, ?_, ?_⟩
    · intro p hp v hv
      rw [objInsert_lookupKey] at hv
      by_cases hk : p.1 = e.1
      · rw [if_pos hk] at hv
        have hpe : p.2 = e.2 :=
          hpc p (List.mem_cons_of_mem e hp) e (List.mem_cons_self e rest) hk
        cases hv
        exact hpe.symm
      · rw [if_neg hk] at hv
        exact hc p (List.mem_cons_of_mem e hp) v hv
    · exact pairwiseConsistent_cons hpc

theorem gcg_success_iff (l : List (String × String)) (s : Bool)
    (cats : List (String × String)) :
    (l.foldl gcgStep (s, cats)).1 = true ↔
      (s = true ∧ CatsCompat cats l ∧ PairwiseConsistent l) := by
  induction l generalizing s cats with
  | nil =>
    simpa using fun _ =>
      ⟨fun p hp => absurd hp (List.not_mem_nil p),
       fun p hp => absurd hp (List.not_mem_nil p)⟩
  | cons e rest ih =>
    rw [List.foldl_cons]
    have hstep : gcgStep (s, cats) e =
        ((if (match lookupKey cats e.1 with
              | some prev => prev != e.2
              | none => false) then false else s),
          objInsert cats e.1 e.2) := rfl
    rw [hstep, ih]
    have hcond : ((if (match lookupKey cats e.1 with
          | some prev => prev != e.2
          | none => false) then false else s) = true) ↔
        (s = true ∧ ∀ v, lookupKey cats e.1 = some v → v = e.2) := by
      cases hl : lookupKey cats e.1 with
      | none => simp
      | some prev =>
        by_cases hpe : prev = e.2 <;> simp [hpe]
    rw [and_comm (a := s = true)] at hcond
    constructor
    · rintro ⟨h1, h2, h3⟩
      rcases hcond.mp h1 with ⟨hv, hs⟩
      exact ⟨hs, (compat_insert_iff e cats rest).mp ⟨hv, h2, h3⟩⟩
    · rintro ⟨hs, hc, hpc⟩
      rcases (compat_insert_iff e cats rest).mpr ⟨hc, hpc⟩ with ⟨hv, h2, h3⟩
      exact ⟨hcond.mpr ⟨hv, hs⟩, h2, h3⟩

theorem gcg_lookup (l : List (String × String)) (s : Bool)
    (cats : List (String × String)) (k : String) :
    lookupKey (l.foldl gcgStep (s, cats)).2 k =
      (lastAssign l k).or (lookupKey cats k) := by
  induction l generalizing s cats with
  | nil => simp [lastAssign]
  | cons e rest ih =>
    rw [List.foldl_cons]
    have hstep : (gcgStep (s, cats) e).2 = objInsert cats e.1 e.2 := rfl
    have : rest.foldl gcgStep (gcgStep (s, cats) e) =
        rest.foldl gcgStep ((gcgStep (s, cats) e).1, objInsert cats e.1 e.2) := by
      rw [← hstep]
    rw [this, ih, lastAssign, Option.or_assoc]
    congr 1
    by_cases he : e.1 = k
    · simp [objInsert_lookupKey, he]
    · have he' : ¬(k = e.1) := fun h => he h.symm
      simp [objInsert_lookupKey, he, he']

theorem lastAssign_some_mem (l : List (String × String)) (k : String)
    (v : String) (h : lastAssign l k = some v) : (k, v) ∈ l := by
  induction l with
  | nil => simp [lastAssign] at h
  | cons e rest ih =>
    rw [lastAssign] at h
    cases hr : lastAssign rest k with
    | some w =>
      rw [hr, Option.or_some] at h
      cases h
      exact List.mem_cons_of_mem e (ih hr)
    | none =>
      rw [hr, Option.none_or] at h
      by_cases he : e.1 = k
      · rw [if_pos he] at h
        cases h
        have : (k, e.2) = e := by
          rw [← he]
        rw [this]
        exact List.mem_cons_self e rest
      · rw [if_neg he] at h
        cases h

theorem lastAssign_isSome_of_mem (l : List (String × String))
    (p : String × String) (h : p ∈ l) : (lastAssign l p.1).isSome := by
  induction l with
  | nil => exact absurd h (List.not_mem_nil p)
  | cons e rest ih =>
    rw [lastAssign]
    rcases List.mem_cons.mp h with hpe | hpr
    · cases hr : lastAssign rest p.1 with
      | some w => simp
      | none =>
        have : e.1 = p.1 := by rw [hpe]
        simp [this]
    · cases hr : lastAssign rest p.1 with
      | some w => simp
      | none =>
        have := ih hpr
        rw [hr] at this
        simp at this

/-! ## Helper lemmas: the decision-mapping fold -/

theorem foldl_objInsert_map {α β : Type} (f : String × β → α)
    (m : List (String × β)) (acc : List (String × α))
    (hdisj : ∀ p ∈ m, lookupKey acc p.1 = none)
    (hnd : (m.map Prod.fst).Nodup) :
    m.foldl (fun g p => objInsert g p.1 (f p)) acc =
      acc ++ m.map (fun p => (p.1, f p)) := by
  induction m generalizing acc with
  | nil => simp
  | cons p m ih =>
    have hfresh : lookupKey acc p.1 = none :=
      hdisj p (List.mem_cons_self p m)
    rw [List.foldl_cons, objInsert_of_fresh _ _ _ hfresh]
    rw [List.map_cons, List.nodup_cons] at hnd
    rw [ih]
    · simp
    · intro q hq
      rw [lookupKey_append_single _ _ _ _ hfresh]
      have hq1 : ¬(q.1 = p.1) := by
        intro hqp
        exact hnd.1 (hqp ▸ List.mem_map_of_mem Prod.fst hq)
      rw [if_neg hq1]
      exact hdisj q (List.mem_cons_of_mem p hq)
    · exact hnd.2

/-! ## C2 : conflict detection in category extraction -/

/-- C2: if some category id is bound by the page's elements to two
distinct labels, `getCookieGroupIDs` returns the failure value `none`
(never a partial or best-guess mapping), and it does so for every
discovery order of the elements; when no id carries two distinct labels
it returns the complete id-to-label mapping. -/
theorem getCookieGroupIDs_spec (elements : List (String × String)) :
    (getCookieGroupIDs elements = none ↔
      ∃ p ∈ bindings elements, ∃ q ∈ bindings elements,
        p.1 = q.1 ∧ p.2 ≠ q.2) ∧
    (∀ m, getCookieGroupIDs elements = some m →
      ∀ p ∈ bindings elements, lookupKey m p.1 = some p.2) ∧
    (∀ elements₂, (bindings elements).Perm (bindings elements₂) →
      (getCookieGroupIDs elements = none ↔ getCookieGroupIDs elements₂ = none)) := by
  have key : ∀ el : List (String × String),
      getCookieGroupIDs el = none ↔ ¬ PairwiseConsistent (bindings el) := by
    intro el
    unfold getCookieGroupIDs
    by_cases h : ((bindings el).foldl gcgStep (true, [])).1 = true
    · rcases (gcg_success_iff _ _ _).mp h with ⟨-, -, hpc⟩
      simp [h, hpc]
    · have hf : ((bindings el).foldl gcgStep (true, [])).1 = false :=
        Bool.not_eq_true _ ▸ (by simpa using h)
      simp only [hf, Bool.false_eq_true, if_false, true_iff]
      intro hpc
      exact h ((gcg_success_iff _ _ _).mpr ⟨rfl, catsCompat_nil _, hpc⟩)
  have unfoldPC : ∀ l : List (String × String),
      ¬ PairwiseConsistent l ↔ ∃ p ∈ l, ∃ q ∈ l, p.1 = q.1 ∧ p.2 ≠ q.2 := by
    intro l
    unfold PairwiseConsistent
    push_neg
    rfl
  refine ⟨(key elements).trans (unfoldPC _), ?_, ?_⟩
  · intro m hm p hp
    have hr : ((bindings elements).foldl gcgStep (true, [])).1 = true := by
      by_contra h
      rw [(key elements).mpr] at hm
      · cases hm
      · intro hpc
        exact h ((gcg_success_iff _ _ _).mpr ⟨rfl, catsCompat_nil _, hpc⟩)
    have hpc : PairwiseConsistent (bindings elements) :=
      ((gcg_success_iff _ _ _).mp hr).2.2
    have hmval : m = ((bindings elements).foldl gcgStep (true, [])).2 := by
      unfold getCookieGroupIDs at hm
      rw [if_pos hr] at hm
      exact (Option.some.injEq _ _ ▸ hm :).symm
    have hsome := lastAssign_isSome_of_mem (bindings elements) p hp
    rcases Option.isSome_iff_exists.mp hsome with ⟨v, hv⟩
    have hmem := lastAssign_some_mem _ _ _ hv
    have hveq : v = p.2 := (hpc (p.1, v) hmem p hp rfl).symm ▸ rfl
    rw [hmval, gcg_lookup, hv]
    rw [hpc p hp (p.1, v) hmem rfl]
    rfl
  · intro el₂ hperm
    rw [key elements, key el₂]
    constructor
    · intro h1 hpc2
      exact h1 fun p hp q hq =>
        hpc2 p (hperm.mem_iff.mp hp) q (hperm.mem_iff.mp hq)
    · intro h2 hpc1
      exact h2 fun p hp q hq =>
        hpc1 p (hperm.mem_iff.mpr hp) q (hperm.mem_iff.mpr hq)

/-- C2 witness: a concrete conflicting page yields `none`, and a concrete
conflict-free page yields the complete mapping. -/
theorem getCookieGroupIDs_spec_witness :
    getCookieGroupIDs [("ot-header-id-1", "A"), ("ot-header-id-1", "B")] = none ∧
    lookupKey [("1", "A"), ("2", "B")] "1" = some "A" :=
  ⟨(getCookieGroupIDs_spec [("ot-header-id-1", "A"), ("ot-header-id-1", "B")]).1.mpr
      ⟨("1", "A"), by decide, ("1", "B"), by decide, rfl, by decide⟩,
   (getCookieGroupIDs_spec [("ot-header-id-1", "A"), ("ot-header-id-2", "B")]).2.1
      [("1", "A"), ("2", "B")] (by decide) ("1", "A") (by decide)⟩

/-! ## C3 : tracking classification -/

/-- C3: the decision mapping built by `disableOnlyTracking` assigns 0
(disabled) to a category exactly when its lowercased label contains one
of the substrings track/target/advert or contains ad/ads as a
space-separated word, and 1 (enabled) otherwise; on
`{1: "Strictly Necessary Cookies", 2: "Targeting Cookies"}` it yields
`{1: 1, 2: 0}`. -/
theorem disableOnlyTracking_spec :
    (∀ label : String,
      isTracking label = true ↔
        ("track".data <:+: (jsToLower label).data ∨
         "target".data <:+: (jsToLower label).data ∨
         "advert".data <:+: (jsToLower label).data ∨
         "ad" ∈ jsSplit (jsToLower label) " " ∨
         "ads" ∈ jsSplit (jsToLower label) " ")) ∧
    (∀ m : List (String × String), (m.map Prod.fst).Nodup →
      disableOnlyTrackingGroups m =
        m.map (fun p => (p.1, if isTracking p.2 then 0 else 1))) ∧
    disableOnlyTrackingGroups
        [("1", "Strictly Necessary Cookies"), ("2", "Targeting Cookies")] =
      [("1", 1), ("2", 0)] := by
  refine ⟨?_, ?_, by decide⟩
  · intro label
    have hexact : ((jsSplit (jsToLower label) " ").any
          (fun w => trackingCorpusExact.contains w) = true) ↔
        ("ad" ∈ jsSplit (jsToLower label) " " ∨
         "ads" ∈ jsSplit (jsToLower label) " ") := by
      rw [List.any_eq_true]
      constructor
      · rintro ⟨w, hw, hc⟩
        rcases List.contains_iff_exists_mem_beq.mp hc with ⟨b, hb, hbeq⟩
        have hwb : w = b := beq_iff_eq.mp hbeq
        rcases List.mem_cons.mp hb with h | hb2
        · exact Or.inl ((hwb.trans h) ▸ hw)
        · rcases List.mem_cons.mp hb2 with h | hb3
          · exact Or.inr ((hwb.trans h) ▸ hw)
          · exact absurd hb3 (List.not_mem_nil b)
      · rintro (h | h)
        · exact ⟨"ad", h, by decide⟩
        · exact ⟨"ads", h, by decide⟩
    have hcorpus : (trackingCorpus.any
          (fun w => containsSub (jsToLower label).data w.data) = true) ↔
        ("track".data <:+: (jsToLower label).data ∨
         "target".data <:+: (jsToLower label).data ∨
         "advert".data <:+: (jsToLower label).data) := by
      rw [List.any_eq_true]
      constructor
      · rintro ⟨w, hw, hc⟩
        rcases List.mem_cons.mp hw with h | hw2
        · exact Or.inl (by simpa [h] using (containsSub_iff _ _).mp hc)
        · rcases List.mem_cons.mp hw2 with h | hw3
          · exact Or.inr (Or.inl (by simpa [h] using (containsSub_iff _ _).mp hc))
          · rcases List.mem_cons.mp hw3 with h | hw4
            · exact Or.inr (Or.inr (by simpa [h] using (containsSub_iff _ _).mp hc))
            · exact absurd hw4 (List.not_mem_nil w)
      · rintro (h | h | h)
        · exact ⟨"track", by decide, (containsSub_iff _ _).mpr h⟩
        · exact ⟨"target", by decide, (containsSub_iff _ _).mpr h⟩
        · exact ⟨"advert", by decide, (containsSub_iff _ _).mpr h⟩
    have hunfold : isTracking label =
        (((jsSplit (jsToLower label) " ").any
            (fun w => trackingCorpusExact.contains w)) ||
          (trackingCorpus.any
            (fun w => containsSub (jsToLower label).data w.data))) := by
      unfold isTracking
      rw [foldl_if_or, foldl_if_or, Bool.false_or]
    rw [hunfold, Bool.or_eq_true, hexact, hcorpus]
    tauto
  · intro m hnd
    have := foldl_objInsert_map
      (fun p : String × String => if isTracking p.2 then (0 : Nat) else 1)
      m [] (fun p _ => rfl) hnd
    simpa [disableOnlyTrackingGroups] using this

/-- C3 witness: the label and mapping of the spec's example. -/
theorem disableOnlyTracking_spec_witness :
    isTracking "Targeting Cookies" = true ∧
    disableOnlyTrackingGroups
        [("1", "Strictly Necessary Cookies"), ("2", "Targeting Cookies")] =
      [("1", 1), ("2", 0)] ∧
    disableOnlyTrackingGroups [("1", "Strictly Necessary Cookies")] =
      [("1", "Strictly Necessary Cookies")].map
        (fun p => (p.1, if isTracking p.2 then 0 else 1)) :=
  ⟨(disableOnlyTracking_spec.1 "Targeting Cookies").mpr
      (Or.inr (Or.inl (by decide))),
   disableOnlyTracking_spec.2.2,
   disableOnlyTracking_spec.2.1 [("1", "Strictly Necessary Cookies")] (by decide)⟩

/-! ## C7 : CMP detection -/

/-- C7 counterexample: with no positive probe the script returns no value
(JS `undefined`), not the string "none" required by the claim. -/
theorem cmpDetection_counterexample :
    cmpDetection false = none ∧ cmpDetection false ≠ some "none" := by
  decide

/-- C7 (amended): the detector returns "onetrust" exactly when the
OneTrust global is present, and otherwise returns no value (`undefined`);
its result is always "onetrust" or `undefined`, never any other value. -/
theorem cmpDetection_amended_spec (b : Bool) :
    (cmpDetection b = some "onetrust" ∨ cmpDetection b = none) ∧
    (cmpDetection b = some "onetrust" ↔ b = true) := by
  cases b <;> simp [cmpDetection]

/-- C7 witness: the positive probe. -/
theorem cmpDetection_amended_spec_witness :
    cmpDetection true = some "onetrust" :=
  (cmpDetection_amended_spec true).2.mpr rfl

/-! ## Helper lemmas: the clickstream comparison loop -/

theorem clickstreamLoop_succ (cs : Clickstream) (fuel t : Nat) (s : ℚ) :
    clickstreamLoop cs (fuel + 1) (t, s) =
      if bothPresent cs t then
        clickstreamLoop cs fuel (t + 1, s + cs.score t)
      else (t, s) := rfl

theorem clickstreamLoop_bounds (cs : Clickstream) (fuel t : Nat) (s : ℚ) :
    t ≤ (clickstreamLoop cs fuel (t, s)).1 ∧
      (clickstreamLoop cs fuel (t, s)).1 ≤ t + fuel := by
  induction fuel generalizing t s with
  | zero => simp [clickstreamLoop]
  | succ fuel ih =>
    rw [clickstreamLoop_succ]
    by_cases h : bothPresent cs t = true
    · rw [if_pos h]
      rcases ih (t + 1) (s + cs.score t) with ⟨h1, h2⟩
      exact ⟨le_trans (Nat.le_succ t) h1, by omega⟩
    · rw [if_neg h]
      omega

theorem clickstreamLoop_present (cs : Clickstream) (fuel t : Nat) (s : ℚ) :
    ∀ i, t ≤ i → i < (clickstreamLoop cs fuel (t, s)).1 →
      bothPresent cs i = true := by
  induction fuel generalizing t s with
  | zero =>
    intro i h1 h2
    simp [clickstreamLoop] at h2
    omega
  | succ fuel ih =>
    intro i h1 h2
    rw [clickstreamLoop_succ] at h2
    by_cases h : bothPresent cs t = true
    · rw [if_pos h] at h2
      rcases Nat.eq_or_lt_of_le h1 with rfl | hlt
      · exact h
      · exact ih (t + 1) (s + cs.score t) i hlt h2
    · rw [if_neg h] at h2
      omega

theorem clickstreamLoop_boundary (cs : Clickstream) (fuel t : Nat) (s : ℚ) :
    (clickstreamLoop cs fuel (t, s)).1 = t + fuel ∨
      bothPresent cs (clickstreamLoop cs fuel (t, s)).1 = false := by
  induction fuel generalizing t s with
  | zero => exact Or.inl rfl
  | succ fuel ih =>
    rw [clickstreamLoop_succ]
    by_cases h : bothPresent cs t = true
    · rw [if_pos h]
      rcases ih (t + 1) (s + cs.score t) with h1 | h2
      · exact Or.inl (by omega)
      · exact Or.inr h2
    · rw [if_neg h]
      exact Or.inr (Bool.not_eq_true _ ▸ (by simpa using h))

theorem clickstreamLoop_sum (cs : Clickstream) (fuel t : Nat) (s : ℚ) :
    (clickstreamLoop cs fuel (t, s)).2 =
      s + ((List.range' t ((clickstreamLoop cs fuel (t, s)).1 - t)).map
        cs.score).sum := by
  induction fuel generalizing t s with
  | zero => simp [clickstreamLoop]
  | succ fuel ih =>
    rw [clickstreamLoop_succ]
    by_cases h : bothPresent cs t = true
    · rw [if_pos h]
      have hge := (clickstreamLoop_bounds cs fuel (t + 1) (s + cs.score t)).1
      have hsub : (clickstreamLoop cs fuel (t + 1, s + cs.score t)).1 - t =
          ((clickstreamLoop cs fuel (t + 1, s + cs.score t)).1 - (t + 1)) + 1 := by
        omega
      rw [ih (t + 1) (s + cs.score t), hsub, List.range'_succ, List.map_cons,
        List.sum_cons]
      ring
    · rw [if_neg h]
      simp

theorem clickstreamLoop_congr (cs cs' : Clickstream) (fuel t : Nat) (s : ℚ)
    (h : ∀ i, t ≤ i → i < t + fuel →
      bothPresent cs i = bothPresent cs' i ∧ cs.score i = cs'.score i) :
    clickstreamLoop cs fuel (t, s) = clickstreamLoop cs' fuel (t, s) := by
  induction fuel generalizing t s with
  | zero => rfl
  | succ fuel ih =>
    rcases h t (Nat.le_refl t) (by omega) with ⟨hp, hs⟩
    rw [clickstreamLoop_succ, clickstreamLoop_succ, ← hp, ← hs]
    by_cases hb : bothPresent cs t = true
    · rw [if_pos hb, if_pos hb]
      exact ih (t + 1) (s + cs.score t) fun i h1 h2 => h i (by omega) (by omega)
    · rw [if_neg hb, if_neg hb]

/-! ## Helper lemmas: the website aggregation fold -/

theorem websiteStep_eq (acc : Nat × Nat × ℚ) (cs : Clickstream) :
    websiteStep acc cs =
      if (clickstreamWalk cs).1 ≠ 0 then
        (acc.1 + (clickstreamWalk cs).1, acc.2.1 + 1,
          acc.2.2 + (clickstreamWalk cs).2 / ((clickstreamWalk cs).1 : ℚ))
      else (acc.1 + (clickstreamWalk cs).1, acc.2.1, acc.2.2) := by
  rcases acc with ⟨a, b, c⟩
  rcases hcw : clickstreamWalk cs with ⟨t, q⟩
  simp [websiteStep, hcw]

theorem websiteFold_spec (cls : List Clickstream) (a b : Nat) (c : ℚ) :
    cls.foldl websiteStep (a, b, c) =
      (a + sampleSize cls, b + (contributing cls).length,
        c + ((contributing cls).map clickstreamSimilarity).sum) := by
  induction cls generalizing a b c with
  | nil => simp [sampleSize, contributing]
  | cons cs cls ih =>
    rw [List.foldl_cons, websiteStep_eq]
    by_cases h : (clickstreamWalk cs).1 ≠ 0
    · rw [if_pos h, ih]
      have hflt : contributing (cs :: cls) = cs :: contributing cls := by
        simp [contributing, List.filter_cons, h]
      rw [hflt]
      refine congrArg₂ Prod.mk ?_ (congrArg₂ Prod.mk ?_ ?_)
      · simp [sampleSize]
        omega
      · simp
        omega
      · simp [clickstreamSimilarity]
        ring
    · rw [if_neg h, ih]
      have h0 : (clickstreamWalk cs).1 = 0 := by omega
      have hflt : contributing (cs :: cls) = contributing cls := by
        simp [contributing, List.filter_cons, h0]
      rw [hflt]
      refine congrArg₂ Prod.mk ?_ rfl
      simp [sampleSize, h0]

theorem natSum_mem_le (l : List Nat) (x : Nat) (h : x ∈ l) : x ≤ l.sum := by
  induction l with
  | nil => cases h
  | cons a l ih =>
    rcases List.mem_cons.mp h with rfl | h2
    · simp
    · have := ih h2
      simp
      omega

theorem natSum_eq_zero (l : List Nat) (h : ∀ x ∈ l, x = 0) : l.sum = 0 := by
  induction l with
  | nil => rfl
  | cons a l ih =>
    rw [List.sum_cons, h a (List.mem_cons_self a l),
      ih fun x hx => h x (List.mem_cons_of_mem a hx)]

theorem natSum_le_bound (l : List Nat) (n : Nat) (h : ∀ x ∈ l, x ≤ n) :
    l.sum ≤ n * l.length := by
  induction l with
  | nil => simp
  | cons a l ih =>
    have h1 := h a (List.mem_cons_self a l)
    have h2 := ih fun x hx => h x (List.mem_cons_of_mem a hx)
    simp [List.sum_cons, Nat.mul_succ]
    omega

/-! ## Helper lemmas: concrete clickstream evaluations -/

theorem cs11_walk : clickstreamWalk cs11 = (10, 10) := by
  norm_num [clickstreamWalk, clickstreamLoop_succ, clickstreamLoop, cs11,
    bothPresent]

theorem cs507a_walk : clickstreamWalk cs507a = (5, 5 / 2) := by
  norm_num [clickstreamWalk, clickstreamLoop_succ, clickstreamLoop, cs507a,
    bothPresent]

theorem cs507b_walk : clickstreamWalk cs507b = (0, 0) := by
  norm_num [clickstreamWalk, clickstreamLoop_succ, clickstreamLoop, cs507b,
    bothPresent]

theorem cs507c_walk : clickstreamWalk cs507c = (7, 7 / 2) := by
  norm_num [clickstreamWalk, clickstreamLoop_succ, clickstreamLoop, cs507c,
    bothPresent]

theorem websiteAgg_cs11 : websiteAgg [cs11] = some (1, 10) := by
  unfold websiteAgg
  rw [List.foldl_cons, List.foldl_nil, websiteStep_eq, cs11_walk]
  norm_num

theorem websiteAgg_cls507 : websiteAgg cls507 = some (1 / 2, 12) := by
  unfold websiteAgg cls507
  simp only [List.foldl_cons, List.foldl_nil, websiteStep_eq,
    cs507a_walk, cs507b_walk, cs507c_walk]
  norm_num

/-! ## C1 : the aggregation layer -/

/-- C1 counterexample: a clickstream with paired artifacts at the eleven
consecutive indices 0..10 (first missing index 11).  The claim's
`total_actions` would be 11 and `sample_size` 11, but the loop compares
at most 10 actions: `total_actions = 10` and the website row carries
`sample_size = 10`. -/
theorem websiteAgg_cap_counterexample :
    ((List.range 11).all (fun i => bothPresent cs11 i)) = true ∧
    bothPresent cs11 11 = false ∧
    clickstreamWalk cs11 = (10, 10) ∧
    websiteAgg [cs11] = some (1, 10) :=
  ⟨by decide, by decide, cs11_walk, websiteAgg_cs11⟩

/-- C1 (amended): per clickstream the loop walks consecutive indices from
0 until the first index where either artifact is missing, capped at 10
(`total_actions`), summing the similarity scores; `clickstream_similarity`
is that sum divided by `total_actions`; a website row is produced exactly
when `sample_size ≥ 1` (equivalently, some clickstream has a comparable
action), and it carries `sample_size` = the sum of `total_actions` over
all clickstreams (zero-action ones included) and `website_similarity` =
the mean of `clickstream_similarity` over exactly the clickstreams with
`total_actions ≥ 1`. -/
theorem websiteAgg_amended_spec (cls : List Clickstream) :
    (∀ cs ∈ cls,
      (clickstreamWalk cs).1 ≤ 10 ∧
      (∀ i, i < (clickstreamWalk cs).1 → bothPresent cs i = true) ∧
      ((clickstreamWalk cs).1 = 10 ∨
        bothPresent cs (clickstreamWalk cs).1 = false) ∧
      (clickstreamWalk cs).2 =
        ((List.range (clickstreamWalk cs).1).map cs.score).sum) ∧
    ((websiteAgg cls).isSome ↔ 1 ≤ sampleSize cls) ∧
    (∀ q n, websiteAgg cls = some (q, n) →
      n = sampleSize cls ∧
      q = ((contributing cls).map clickstreamSimilarity).sum /
            ((contributing cls).length : ℚ)) := by
  have hiff : (contributing cls).length ≠ 0 ↔ 1 ≤ sampleSize cls := by
    constructor
    · intro h
      rcases List.exists_mem_of_length_pos (Nat.pos_of_ne_zero h) with ⟨cs, hcs⟩
      rcases List.mem_filter.mp hcs with ⟨hmem, hne⟩
      have h1 : 1 ≤ (clickstreamWalk cs).1 :=
        Nat.pos_of_ne_zero (by simpa using hne)
      have h2 : (clickstreamWalk cs).1 ≤ sampleSize cls :=
        natSum_mem_le _ _ (List.mem_map_of_mem _ hmem)
      omega
    · intro h hlen
      have hnil : contributing cls = [] := List.length_eq_zero.mp hlen
      have hall : ∀ cs ∈ cls, (clickstreamWalk cs).1 = 0 := by
        intro cs hcs
        by_contra hne
        have : cs ∈ contributing cls :=
          List.mem_filter.mpr ⟨hcs, by simpa using hne⟩
        rw [hnil] at this
        cases this
      have : sampleSize cls = 0 := by
        apply natSum_eq_zero
        intro x hx
        rcases List.mem_map.mp hx with ⟨cs, hcs, rfl⟩
        exact hall cs hcs
      omega
  refine ⟨?_, ?_, ?_⟩
  · intro cs _
    refine ⟨?_, ?_, ?_, ?_⟩
    · simpa using (clickstreamLoop_bounds cs 10 0 0).2
    · intro i hi
      exact clickstreamLoop_present cs 10 0 0 i (Nat.zero_le i) hi
    · simpa using clickstreamLoop_boundary cs 10 0 0
    · have := clickstreamLoop_sum cs 10 0 0
      simpa [clickstreamWalk, List.range_eq_range'] using this
  · unfold websiteAgg
    rw [websiteFold_spec]
    by_cases h : (contributing cls).length ≠ 0
    · simp only [Nat.zero_add] at h ⊢
      rw [if_pos (by simpa using h)]
      simpa using hiff.mp h
    · simp only [Nat.zero_add] at h ⊢
      rw [if_neg (by simpa using h)]
      simp only [Option.isSome_none, Bool.false_eq_true, false_iff]
      intro hc
      exact h (hiff.mpr hc)
  · intro q n hqn
    unfold websiteAgg at hqn
    rw [websiteFold_spec] at hqn
    by_cases h : (contributing cls).length ≠ 0
    · rw [if_pos (by simpa using h)] at hqn
      rcases Prod.mk.injEq .. ▸ Option.some.injEq .. ▸ hqn with h2
      have h3 := congrArg Prod.fst (Option.some.inj hqn)
      have h4 := congrArg Prod.snd (Option.some.inj hqn)
      simp at h3 h4
      exact ⟨h4.symm, h3.symm⟩
    · rw [if_neg (by simpa using h)] at hqn
      cases hqn

/-- C1 witness: the spec's 5/0/7 example website, every comparison
scoring 1/2. -/
theorem websiteAgg_amended_spec_witness :
    websiteAgg cls507 = some (1 / 2, 12) ∧
    12 = sampleSize cls507 ∧
    (1 : ℚ) / 2 = ((contributing cls507).map clickstreamSimilarity).sum /
        ((contributing cls507).length : ℚ) :=
  ⟨websiteAgg_cls507,
   ((websiteAgg_amended_spec cls507).2.2 (1 / 2) 12 websiteAgg_cls507).1,
   ((websiteAgg_amended_spec cls507).2.2 (1 / 2) 12 websiteAgg_cls507).2⟩

/-! ## C10 : the ten-action cap -/

/-- C10: the aggregation compares at most the first 10 action indices:
`total_actions ≤ 10` always; two clickstreams (or two clickstream lists)
agreeing on artifact presence and scores at indices 0..9 produce
identical walk results and identical website aggregates, so artifacts
beyond index 9 never influence the output; and each clickstream
contributes at most 10 to `sample_size`. -/
theorem clickstream_ten_action_cap :
    (∀ cs : Clickstream, (clickstreamWalk cs).1 ≤ 10) ∧
    (∀ cs cs' : Clickstream,
      (∀ i, i < 10 →
        bothPresent cs i = bothPresent cs' i ∧ cs.score i = cs'.score i) →
      clickstreamWalk cs = clickstreamWalk cs') ∧
    (∀ cls cls' : List Clickstream,
      List.Forall₂ (fun cs cs' => ∀ i, i < 10 →
        bothPresent cs i = bothPresent cs' i ∧ cs.score i = cs'.score i)
        cls cls' →
      websiteAgg cls = websiteAgg cls') ∧
    (∀ cls : List Clickstream, sampleSize cls ≤ 10 * cls.length) := by
  have hwalk : ∀ cs cs' : Clickstream,
      (∀ i, i < 10 →
        bothPresent cs i = bothPresent cs' i ∧ cs.score i = cs'.score i) →
      clickstreamWalk cs = clickstreamWalk cs' := by
    intro cs cs' h
    exact clickstreamLoop_congr cs cs' 10 0 0 fun i h1 h2 => h i (by omega)
  refine ⟨?_, hwalk, ?_, ?_⟩
  · intro cs
    simpa using (clickstreamLoop_bounds cs 10 0 0).2
  · intro cls cls' hf
    have hfold : ∀ acc : Nat × Nat × ℚ,
        cls.foldl websiteStep acc = cls'.foldl websiteStep acc := by
      induction hf with
      | nil => intro acc; rfl
      | cons hab htail ih =>
        intro acc
        rw [List.foldl_cons, List.foldl_cons, websiteStep_eq, websiteStep_eq,
          hwalk _ _ hab]
        exact ih _
    unfold websiteAgg
    rw [hfold]
  · intro cls
    unfold sampleSize
    have h := natSum_le_bound (cls.map (fun cs => (clickstreamWalk cs).1)) 10
      (by
        intro x hx
        rcases List.mem_map.mp hx with ⟨cs, _, rfl⟩
        simpa using (clickstreamLoop_bounds cs 10 0 0).2)
    simpa using h

/-- C10 witness: two clickstreams agreeing below index 10 but differing
at index 12 produce the same walk result. -/
theorem clickstream_ten_action_cap_witness :
    clickstreamWalk csAll = clickstreamWalk csHigh :=
  clickstream_ten_action_cap.2.1 csAll csHigh (by decide)

/-! ## Helper lemmas: fullPath segments -/

theorem specSegs_cons_noid (e f : PathEntry) (rest : List PathEntry)
    (h : e.idAttr = "") :
    specSegs (e :: f :: rest) = qualifiedName e :: specSegs (f :: rest) := by
  unfold specSegs
  rw [List.takeWhile_cons, List.dropWhile_cons]
  simp only [h, beq_self_eq_true, if_true]
  cases hdw : List.dropWhile (fun e => e.idAttr == "") (f :: rest) with
  | cons anchor tail => simp
  | nil =>
    have htw : List.takeWhile (fun e => e.idAttr == "") (f :: rest) = f :: rest := by
      have := List.takeWhile_append_dropWhile
        (p := fun e : PathEntry => e.idAttr == "") (l := f :: rest)
      rw [hdw, List.append_nil] at this
      exact this
    rw [htw]
    have hlast : (f :: rest).getLast? = some ((f :: rest).getLast (by simp)) :=
      List.getLast?_eq_getLast _ _
    rw [List.getLast?_cons_cons, hlast]
    simp [List.dropLast_cons₂, htw, hlast]

theorem fullPathSegs_eq_specSegs (chain : List PathEntry) :
    fullPathSegs chain = specSegs chain := by
  induction chain with
  | nil => rfl
  | cons e rest ih =>
    by_cases hid : e.idAttr = ""
    · cases rest with
      | nil =>
        simp [fullPathSegs, specSegs, hid, List.takeWhile_cons,
          List.dropWhile_cons]
      | cons f rest' =>
        rw [specSegs_cons_noid e f rest' hid, ← ih]
        simp [fullPathSegs, hid, qualifiedName]
    · simp [fullPathSegs, specSegs, hid, List.takeWhile_cons,
        List.dropWhile_cons]

/-! ## C8 : structural selector construction -/

/-- C8 counterexample: for an element whose ancestor chain carries no id,
the walk reaches the document root, which contributes its bare tag name
(`HTML`), not `HTML:nth-child(1)` as the claim's rule ("an element
without an id contributes its tag qualified by its position") would
require. -/
theorem fullPath_root_counterexample :
    fullPath noIdChain = "HTML > BODY:nth-child(2) > DIV:nth-child(1)" ∧
    fullPath noIdChain ≠
      "HTML:nth-child(1) > BODY:nth-child(2) > DIV:nth-child(1)" := by
  constructor
  · rfl
  · decide

/-- C8 (amended): the selector is built by walking toward the document
root: an element with an id anchors the path as `#id` and ascent stops; an
element without one contributes `TAG:nth-child(pos)` with its 1-based
position among sibling elements, except the document root, which
contributes its bare tag name; segments are joined root-to-leaf with
`" > "`.  In particular two sibling DIVs without ids under a parent with
id `root` yield `#root > DIV:nth-child(1)` and `#root > DIV:nth-child(2)`. -/
theorem fullPath_amended_spec :
    (∀ chain : List PathEntry,
      fullPath chain = jsJoin " > " (specSegs chain).reverse) ∧
    fullPath divChain₁ = "#root > DIV:nth-child(1)" ∧
    fullPath divChain₂ = "#root > DIV:nth-child(2)" := by
  refine ⟨?_, rfl, rfl⟩
  intro chain
  unfold fullPath
  rw [fullPathSegs_eq_specSegs]

/-- C8 witness: the segment characterization evaluated on a concrete
chain with an id-bearing ancestor. -/
theorem fullPath_amended_spec_witness :
    fullPath divChain₁ = jsJoin " > " (specSegs divChain₁).reverse ∧
    fullPath divChain₁ = "#root > DIV:nth-child(1)" :=
  ⟨fullPath_amended_spec.1 divChain₁, fullPath_amended_spec.2.1⟩

/-! ## C6 : the disabled nesting filter -/

/-- C6 counterexample: in a document where a matched BUTTON contains a
matched A element (the BUTTON's chain is a proper suffix of the A's
chain, i.e. the A is its DOM descendant), the A's selector still appears
in the produced list: the nesting filter of clickable-elements.js is
commented out, so nested matched elements are not excluded. -/
theorem clickable_nesting_counterexample :
    clickableSelectors c6doc =
      ["HTML > BUTTON:nth-child(1)",
       "HTML > BUTTON:nth-child(1) > A:nth-child(1)"] ∧
    includeElement buttonNode = true ∧
    includeElement aNode = true ∧
    (documentItems c6doc).map (fun p => p.2) = [buttonChain, aChain] ∧
    buttonChain <:+ aChain ∧
    buttonChain ≠ aChain := by
  refine ⟨rfl, rfl, rfl, rfl, ?_, by decide⟩
  exact ⟨[⟨"A", "", 1⟩], rfl⟩

/-- C6 (amended): no nesting filter is applied (it is commented out in
the source): every element satisfying the clickability predicate
contributes its selector to the output, including elements nested inside
other matched clickable elements. -/
theorem clickableSelectors_keeps_nested (doc : DomSnapshot)
    (p : DomElem × List PathEntry) (hp : p ∈ doc)
    (hinc : includeElement p.1 = true) :
    fullPath p.2 ∈ clickableSelectors doc := by
  unfold clickableSelectors documentItems
  exact List.mem_map_of_mem _ (List.mem_filter.mpr ⟨hp, hinc⟩)

/-- C6 witness: the nested A element of the counterexample document is
kept. -/
theorem clickableSelectors_keeps_nested_witness :
    fullPath aChain ∈ clickableSelectors c6doc :=
  clickableSelectors_keeps_nested c6doc (aNode, aChain) (by decide) rfl

/-! ## C4 : failure handling of the injector main body -/

/-- C4 (code-bug evidence): the three failure checks of onetrust.js only
log a warning — their return statements are commented out — so the main
body falls through.  With no consent cookie it crashes inside
`decodeString(undefined)`; with a category-id conflict it still rewrites
and commits the cookie, carrying an empty groups encoding; with the
OneTrust API absent it crashes at `OneTrust.GetDomainData()`.  No
distinct reason code is returned in any of the three modes. -/
theorem onetrustMain_failure_crashes :
    onetrustMain ⟨none, [], some "example.com"⟩ "T0"
      = .crashed "TypeError: undefined has no method split" ∧
    onetrustMain ⟨some "groups=1:1&interactionCount=0",
        [("ot-header-id-1", "A"), ("ot-header-id-1", "B")],
        some "example.com"⟩ "T0"
      = .success
          [ .remove "OptanonConsent" "/" ".example.com",
            .set "OptanonConsent"
              "groups=&interactionCount=1&landingPath=NotLandingPage" "/"
              ".example.com" 1 false "Lax",
            .set "OptanonAlertBoxClosed" "T0" "/" ".example.com" 1 false
              "Lax" ] ∧
    onetrustMain ⟨some "groups=1:1&interactionCount=0", [], none⟩ "T0"
      = .crashed "TypeError: OneTrust is undefined" := by
  refine ⟨rfl, by decide, rfl⟩

/-! ## C9 : the successful rewrite-and-commit path -/

/-- C9: after a successful injection (consent cookie present, categories
extracted without conflict, OneTrust API present), the re-encoded cookie
body differs from the decoded original in exactly three fields — groups
(replaced by the colon/comma-encoded decision mapping), interactionCount
(incremented by 1), landingPath (set to the NotLandingPage sentinel) —
every other field unchanged; the old cookie is removed and the new one
committed with path "/", the leading-dot root domain, 1-day expiry, not
secure-only, SameSite=Lax, and the companion OptanonAlertBoxClosed
timestamp cookie carries the identical domain and expiry. -/
theorem onetrustMain_success_spec (page : PageState) (now s d : String)
    (cm : List (String × String)) (j : Int)
    (hc : page.optanonConsent = some s)
    (hd : page.oneTrustDomain = some d)
    (hg : getCookieGroupIDs page.elements = some cm)
    (hic : parseIntJS (jsGet (decodeString s) "interactionCount") = some j) :
    onetrustMain page now = .success
      [ .remove "OptanonConsent" "/" ("." ++ d),
        .set "OptanonConsent"
          (encodeObject (injectedBody s (getCookieGroupIDs page.elements)))
          "/" ("." ++ d) 1 false "Lax",
        .set "OptanonAlertBoxClosed" now "/" ("." ++ d) 1 false "Lax" ] ∧
    lookupKey (injectedBody s (getCookieGroupIDs page.elements)) "groups" =
      some (some (encodeGroups (disableOnlyTrackingGroups cm))) ∧
    lookupKey (injectedBody s (getCookieGroupIDs page.elements))
        "interactionCount" = some (some (toString (j + 1))) ∧
    lookupKey (injectedBody s (getCookieGroupIDs page.elements))
        "landingPath" = some (some "NotLandingPage") ∧
    (∀ k, k ≠ "groups" → k ≠ "interactionCount" → k ≠ "landingPath" →
      lookupKey (injectedBody s (getCookieGroupIDs page.elements)) k =
        lookupKey (decodeString s) k) := by
  have hic1 : jsGet (objInsert (decodeString s) "groups"
      (some (disableOnlyTracking (getCookieGroupIDs page.elements))))
      "interactionCount" = jsGet (decodeString s) "interactionCount" := by
    unfold jsGet
    rw [objInsert_lookupKey,
      if_neg (by decide : ¬("interactionCount" = "groups"))]
  have hbody : injectedBody s (getCookieGroupIDs page.elements) =
      objInsert (objInsert (objInsert (decodeString s) "groups"
          (some (disableOnlyTracking (getCookieGroupIDs page.elements))))
          "interactionCount" (some (toString (j + 1))))
        "landingPath" (some "NotLandingPage") := by
    simp only [injectedBody, hic1, hic]
  refine ⟨?_, ?_, ?_, ?_, ?_⟩
  · unfold onetrustMain
    rw [hc, hd]
  · rw [hbody, objInsert_lookupKey,
      if_neg (by decide : ¬("groups" = "landingPath")),
      objInsert_lookupKey,
      if_neg (by decide : ¬("groups" = "interactionCount")),
      objInsert_lookupKey, if_pos rfl, hg]
    rfl
  · rw [hbody, objInsert_lookupKey,
      if_neg (by decide : ¬("interactionCount" = "landingPath")),
      objInsert_lookupKey, if_pos rfl]
  · rw [hbody, objInsert_lookupKey, if_pos rfl]
  · intro k h1 h2 h3
    rw [hbody, objInsert_lookupKey, if_neg h3, objInsert_lookupKey,
      if_neg h2, objInsert_lookupKey, if_neg h1]

/-! ## Helper lemmas: the query-string codec -/

theorem stringMk_data (s : String) : String.mk s.data = s := rfl

theorem jsSplit_amp (s : String) :
    jsSplit s "&" = (splitChar '&' s.data).map String.mk := rfl

theorem jsSplit_eq (s : String) :
    jsSplit s "=" = (splitChar '=' s.data).map String.mk := rfl

theorem goodStr_spec (s : String) (h : goodStr s = true) :
    '&' ∉ s.data ∧ '=' ∉ s.data := by
  unfold goodStr at h
  rcases Bool.and_eq_true_iff.mp h with ⟨h1, h2⟩
  constructor
  · intro hmem
    have hc : s.data.contains '&' = true :=
      List.contains_iff_exists_mem_beq.mpr ⟨'&', hmem, by decide⟩
    rw [hc] at h1
    cases h1
  · intro hmem
    have hc : s.data.contains '=' = true :=
      List.contains_iff_exists_mem_beq.mpr ⟨'=', hmem, by decide⟩
    rw [hc] at h2
    cases h2

theorem goodVal_spec (v : Option String) (h : goodVal v = true) :
    ∃ w, v = some w ∧ '&' ∉ w.data ∧ '=' ∉ w.data := by
  cases v with
  | none => cases h
  | some w => exact ⟨w, rfl, goodStr_spec w h⟩

theorem piece_data (k v : String) :
    (k ++ "=" ++ jsUndef (some v)).data = k.data ++ '=' :: v.data := by
  simp [jsUndef, String.data_append]

theorem decodePair_wf (result : List (String × Option String)) (k v : String)
    (hk : '=' ∉ k.data) (hv : '=' ∉ v.data) :
    decodePair result (k ++ "=" ++ jsUndef (some v)) =
      objInsert result k (some v) := by
  unfold decodePair
  have hsplit : jsSplit (k ++ "=" ++ jsUndef (some v)) "=" = [k, v] := by
    rw [jsSplit_eq, piece_data, splitChar_append _ _ _ hk,
      splitChar_of_not_mem _ _ hv]
    simp [stringMk_data]
  rw [hsplit]
  rfl

theorem decode_foldl (m : List (String × Option String))
    (acc : List (String × Option String))
    (hkeys : ∀ p ∈ m, goodStr p.1 = true)
    (hvals : ∀ p ∈ m, goodVal p.2 = true)
    (hnd : (m.map Prod.fst).Nodup)
    (hdisj : ∀ p ∈ m, lookupKey acc p.1 = none) :
    (m.map (fun p => p.1 ++ "=" ++ jsUndef p.2)).foldl decodePair acc =
      acc ++ m := by
  induction m generalizing acc with
  | nil => simp
  | cons p m ih =>
    rcases goodVal_spec p.2 (hvals p (List.mem_cons_self p m)) with
      ⟨v, hpv, -, hveq⟩
    have hkeq : '=' ∉ p.1.data :=
      (goodStr_spec p.1 (hkeys p (List.mem_cons_self p m))).2
    have hfresh : lookupKey acc p.1 = none := hdisj p (List.mem_cons_self p m)
    rw [List.map_cons, List.foldl_cons, hpv,
      decodePair_wf acc p.1 v hkeq hveq, objInsert_of_fresh _ _ _ hfresh]
    rw [List.map_cons, List.nodup_cons] at hnd
    have hstep := ih (acc ++ [(p.1, some v)])
      (fun q hq => hkeys q (List.mem_cons_of_mem p hq))
      (fun q hq => hvals q (List.mem_cons_of_mem p hq)) hnd.2
      (fun q hq => by
        rw [lookupKey_append_single _ _ _ _ hfresh]
        have hq1 : ¬(q.1 = p.1) := fun hqp =>
          hnd.1 (hqp ▸ List.mem_map_of_mem Prod.fst hq)
        rw [if_neg hq1]
        exact hdisj q (List.mem_cons_of_mem p hq))
    rw [hstep]
    have hp : (p.1, some v) = p := by
      rw [← hpv]
    rw [hp, List.append_assoc, List.singleton_append]

/-! ## C5 : round-trip of the decision-mapping encoding -/

/-- C5 counterexample: the string representation of a decision mapping is
produced by `encodeGroups` (colon/comma pairs), but the only decoder,
`decodeString`, splits on `&` and `=`: decoding the encoding of the
mapping `{1 ↦ 1}` yields the single-key object `{"1:1" ↦ undefined}`,
which is not the original mapping (its key set differs). -/
theorem encodeGroups_roundtrip_counterexample :
    encodeGroups [("1", 1)] = "1:1" ∧
    decodeString (encodeGroups [("1", 1)]) = [("1:1", none)] ∧
    (decodeString (encodeGroups [("1", 1)])).map Prod.fst ≠ ["1"] := by
  refine ⟨rfl, rfl, by decide⟩

/-- C5 (amended): the inverse pair in the code is `encodeObject` /
`decodeString` (the ampersand/equals query-string codec used for the full
cookie body): for every nonempty mapping with pairwise-distinct keys
whose keys and (defined) values contain neither `&` nor `=`, decoding the
encoding returns the identical mapping.  The groups encoding
(`encodeGroups`) has no decoder and does not round-trip through
`decodeString`. -/
theorem decodeString_encodeObject_roundtrip
    (m : List (String × Option String))
    (hne : m ≠ [])
    (hnd : (m.map Prod.fst).Nodup)
    (hkeys : ∀ p ∈ m, goodStr p.1 = true)
    (hvals : ∀ p ∈ m, goodVal p.2 = true) :
    decodeString (encodeObject m) = m := by
  unfold decodeString encodeObject
  have hsplit : jsSplit (jsJoin "&" (m.map fun p => p.1 ++ "=" ++ jsUndef p.2))
      "&" = m.map (fun p => p.1 ++ "=" ++ jsUndef p.2) := by
    rw [jsSplit_amp]
    have hdata : (jsJoin "&" (m.map fun p => p.1 ++ "=" ++ jsUndef p.2)).data =
        joinList ['&'] ((m.map fun p => p.1 ++ "=" ++ jsUndef p.2).map
          String.data) := rfl
    rw [hdata, splitChar_joinList]
    · rw [List.map_map, List.map_map]
      exact List.map_congr_left fun p _ => stringMk_data _
    · simpa using hne
    · intro pd hpd
      rcases List.mem_map.mp hpd with ⟨piece, hpiece, rfl⟩
      rcases List.mem_map.mp hpiece with ⟨p, hp, rfl⟩
      rcases goodVal_spec p.2 (hvals p hp) with ⟨v, hpv, hvamp, -⟩
      have hkamp : '&' ∉ p.1.data := (goodStr_spec p.1 (hkeys p hp)).1
      rw [hpv, piece_data]
      intro hmem
      rcases List.mem_append.mp hmem with h | h
      · exact hkamp h
      · rcases List.mem_cons.mp h with h | h
        · cases h
        · exact hvamp h
  rw [hsplit]
  have := decode_foldl m [] hkeys hvals hnd (fun p _ => rfl)
  simpa using this

/-- C5 witness: a concrete two-field decision-style mapping
round-trips through `encodeObject` / `decodeString`. -/
theorem decodeString_encodeObject_roundtrip_witness :
    decodeString (encodeObject
      [("groups", some "C1:1"), ("interactionCount", some "2")]) =
      [("groups", some "C1:1"), ("interactionCount", some "2")] :=
  decodeString_encodeObject_roundtrip
    [("groups", some "C1:1"), ("interactionCount", some "2")]
    (by decide) (by decide) (by decide) (by decide)

/-- C9 witness: a concrete page with a four-field consent cookie. -/
theorem onetrustMain_success_spec_witness :
    onetrustMain pageOk "2024-01-01T00:00:00.000Z" = .success
      [ .remove "OptanonConsent" "/" ("." ++ "example.com"),
        .set "OptanonConsent"
          (encodeObject (injectedBody
            "groups=1:1&interactionCount=2&landingPath=www.x.com&foo=bar"
            (getCookieGroupIDs pageOk.elements)))
          "/" ("." ++ "example.com") 1 false "Lax",
        .set "OptanonAlertBoxClosed" "2024-01-01T00:00:00.000Z" "/"
          ("." ++ "example.com") 1 false "Lax" ] ∧
    lookupKey (injectedBody
        "groups=1:1&interactionCount=2&landingPath=www.x.com&foo=bar"
        (getCookieGroupIDs pageOk.elements)) "interactionCount" =
      some (some (toString ((2 : Int) + 1))) :=
  ⟨(onetrustMain_success_spec pageOk "2024-01-01T00:00:00.000Z"
      "groups=1:1&interactionCount=2&landingPath=www.x.com&foo=bar"
      "example.com"
      [("1", "Strictly Necessary Cookies"), ("2", "Targeting Cookies")] 2
      rfl rfl (by decide) (by decide)).1,
   (onetrustMain_success_spec pageOk "2024-01-01T00:00:00.000Z"
      "groups=1:1&interactionCount=2&landingPath=www.x.com&foo=bar"
      "example.com"
      [("1", "Strictly Necessary Cookies"), ("2", "Targeting Cookies")] 2
      rfl rfl (by decide) (by decide)).2.2.1⟩

end CookieClassify
